import Mathlib

/-!
# xlsx2csv: output-name derivation and sheet export

A shallow embedding of `main.go` of `kpym/xlsx2csv`:

* `csvName`, the function deriving an output file name from a pattern and a
  sheet index, together with the standard-library string routines it calls;
* `generateCSVFromXLSXFile`, the exporter that walks the rows and cells of one
  sheet and hands one record per row to a CSV writer;
* `main`, the driver that chooses the output pattern and the range of sheets
  and calls the exporter for each of them.

Modelling choices:

* Go strings are lists of characters.  Every token the program searches for
  (`%d`, `.`, the path separators, `.xlsx`) is ASCII, so searching characters
  and searching bytes agree.
* Go `int` values are integers; the program does no arithmetic on them that
  could overflow (the loop variable stays below the number of sheets).
* `filepath.Ext` depends on the operating system through
  `os.IsPathSeparator`; the operating system is a parameter `GOOS`.
* The libraries are taken at their interface: a cell is the result of its
  `FormattedValue()`, a row is nil or the list of its cells, a sheet is the
  list of rows `ForEachRow` visits; the CSV writer is observed through the
  records handed to `Write`; `os.Create` and the error reported by the writer
  after `Flush` are given by an environment `Env`.
* A call ends by returning an error value (possibly nil) or by panicking
  (indexing `Sheets` with a negative index, or `delimiterOption` on an empty
  delimiter).
-/

namespace Xlsx2csv

/-! ## Strings and the standard-library routines used by `csvName` -/

/-- A Go string, as the list of its characters. -/
abbrev GoString := List Char

/-- The operating systems that differ in `os.IsPathSeparator`. -/
inductive GOOS where
  | unix
  | windows
  deriving DecidableEq, Repr

/-- Go `os.IsPathSeparator`: `/` everywhere, and also the backslash
(character 92) on Windows. -/
def IsPathSeparator (os : GOOS) (c : Char) : Bool :=
  match os with
  | .unix => c == '/'
  | .windows => c == Char.ofNat 92 || c == '/'

/-- The backward scan of Go `filepath.Ext`:
`for i := len(path)-1; i >= 0 && !os.IsPathSeparator(path[i]); i-- { if path[i] == '.' { return path[i:] } }; return ""`.
The first argument is `path[0..i]` reversed (so its head is `path[i]`), the
second is `path[i+1:]`. -/
def extLoop (os : GOOS) : List Char → List Char → GoString
  | [], _ => []
  | c :: before, after =>
    if IsPathSeparator os c then []
    else if c = '.' then c :: after
    else extLoop os before (c :: after)

/-- Go `filepath.Ext`: the suffix beginning at the final dot of the final path
element, empty when there is no dot. -/
def Ext (os : GOOS) (path : GoString) : GoString :=
  extLoop os path.reverse []

/-- Go `strings.HasSuffix`:
`len(s) >= len(suffix) && s[len(s)-len(suffix):] == suffix`. -/
def HasSuffix (s suffix : GoString) : Bool :=
  decide (suffix.length ≤ s.length) && s.drop (s.length - suffix.length) == suffix

/-- Go `strings.TrimSuffix`:
`if HasSuffix(s, suffix) { return s[:len(s)-len(suffix)] }; return s`. -/
def TrimSuffix (s suffix : GoString) : GoString :=
  if HasSuffix s suffix then s.take (s.length - suffix.length) else s

/-- Go `strings.HasPrefix`, written as a match test at the head of `s`:
`len(s) >= len(p) && s[:len(p)] == p`. -/
def startsWith (s p : GoString) : Bool :=
  decide (p.length ≤ s.length) && s.take p.length == p

/-- Go `strings.Index`: the index of the first instance of `substr` in `s`,
or `-1` when there is none. -/
def Index : GoString → GoString → Int
  | [], substr => if startsWith [] substr then 0 else -1
  | c :: t, substr =>
    if startsWith (c :: t) substr then 0
    else
      let r := Index t substr
      if r < 0 then -1 else r + 1

/-- Go `strings.Contains`: `Index(s, substr) >= 0`. -/
def Contains (s substr : GoString) : Bool :=
  decide (Index s substr ≥ 0)

/-- The replacement loop of Go `strings.Replace`: at most `k` further
replacements in the rest `s` of the string.  For a non-empty `old` the next
instance is found with `Index`; an empty `old` matches before each
character and at the end. -/
def replaceLoop (old new : GoString) : Nat → GoString → GoString
  | 0, s => s
  | k + 1, s =>
    if old = [] then
      match s with
      | [] => new
      | c :: t => new ++ c :: replaceLoop old new k t
    else
      let j := Index s old
      if j < 0 then s
      else s.take j.toNat ++ new ++ replaceLoop old new k (s.drop (j.toNat + old.length))

/-- Go `strings.Replace(s, old, new, n)`: `s` with the first `n`
non-overlapping instances of `old` replaced by `new`; all of them when
`n < 0`. -/
def Replace (s old new : GoString) (n : Int) : GoString :=
  if old = new ∨ n = 0 then s
  else replaceLoop old new (if n < 0 then s.length + 1 else n.toNat) s

/-- Go `fmt.Sprintf("%d", i)`: the decimal form of `i`, with a leading minus
sign for a negative number. -/
def formatInt (i : Int) : GoString :=
  if i < 0 then '-' :: Nat.toDigits 10 i.natAbs else Nat.toDigits 10 i.toNat

/-- The two-character token `%d`. -/
def tokD : GoString := ['%', 'd']

/-! ## `csvName` -/

/-- The function `csvName` of `main.go`. -/
def csvName (os : GOOS) (pattern : GoString) (sheetIndex : Int) : GoString :=
  if pattern = [] then []
  else
    let ext := Ext os pattern
    let base := if ext = [] then pattern else TrimSuffix pattern ext
    let ext := if ext = [] then ".csv".toList else ext
    let base :=
      if sheetIndex ≥ 0 then
        let indexStr := formatInt sheetIndex
        if Contains base tokD then Replace base tokD indexStr 1
        else base ++ ['.'] ++ indexStr
      else Replace base tokD [] 1
    base ++ ext

/-! ## Workbooks, the CSV writer and the environment -/

/-- The error values the program returns or reports.  `external` stands for an
error produced by a library call (`os.Create`, `cell.FormattedValue`, the CSV
writer, `xlsx.OpenFile`). -/
inductive Error where
  /-- `errors.New("This XLSX file contains no sheets.")` -/
  | noSheets
  /-- `fmt.Errorf("No sheet %d available, please select a sheet between 0 and %d\n", sheetIndex, sheetLen-1)` -/
  | noSheetAvailable (sheetIndex : Int) (maxIndex : Int)
  | external (msg : GoString)
  deriving DecidableEq, Repr

/-- A cell, as the result of `cell.FormattedValue()` on it. -/
inductive Cell where
  | value (str : GoString)
  | failure (err : Error)
  deriving DecidableEq, Repr

/-- A row handed to the row visitor: `none` is a nil `*xlsx.Row`, `some cells`
a present row with its cells from left to right. -/
abbrev Row := Option (List Cell)

/-- A sheet: the rows `sheet.ForEachRow` visits, top to bottom. -/
structure Sheet where
  rows : List Row
  deriving DecidableEq, Repr

/-- An opened workbook (`*xlsx.File`). -/
structure File where
  Sheets : List Sheet
  deriving DecidableEq, Repr

/-- A CSV record: the fields handed to one `cw.Write` call. -/
abbrev Record := List GoString

/-- The environment of an export: whether `os.Create(name)` fails, and the
error `cw.Error()` reports after `cw.Flush()` for a destination and the
records handed to the writer (`none` is a nil error). -/
structure Env where
  createErr : GoString → Option Error
  csvErr : GoString → List Record → Option Error

/-- What calling a non-nil `csvOptSetter` does: set the writer's `Comma`, or
panic. -/
inductive OptCall where
  | setsComma (c : Char)
  | panics
  deriving DecidableEq, Repr

/-- The type `csvOptSetter` of `main.go`; `none` is the nil function. -/
abbrev csvOptSetter := Option OptCall

/-- How a call ends: it returns an error value (`none` is nil), or panics. -/
inductive Outcome where
  | returned (err : Option Error)
  | panicked
  deriving DecidableEq, Repr

/-- The observable effects of one call of `generateCSVFromXLSXFile`: the files
created or truncated by `os.Create`, the writer's `Comma`, the records handed
to `cw.Write` in order, and how the call ended. -/
structure Export where
  created : List GoString
  comma : Char
  written : List Record
  outcome : Outcome
  deriving DecidableEq, Repr

/-! ## `generateCSVFromXLSXFile` -/

/-- The call `row.ForEachCell(func(cell) error {...})` of the source, started
with the buffer `vals`: each formatted value is appended to `vals`, and the
first failing cell stops the walk with its error. -/
def forEachCell : List Cell → List GoString → List GoString × Option Error
  | [], vals => (vals, none)
  | Cell.failure err :: _, vals => (vals, some err)
  | Cell.value str :: cells, vals => forEachCell cells (vals ++ [str])

/-- The call `sheet.ForEachRow(func(row) error {...})` of the source, with the
captured buffer `vals` and the records written so far: a present row resets
the buffer (`vals = vals[:0]`) and fills it from its cells, a nil row leaves it
alone, and each visited row ends with `cw.Write(vals)` unless a cell failed. -/
def forEachRow : List Row → List GoString → List Record → List Record × Option Error
  | [], _, written => (written, none)
  | none :: rows, vals, written => forEachRow rows vals (written ++ [vals])
  | some cells :: rows, _, written =>
    match forEachCell cells [] with
    | (_, some err) => (written, some err)
    | (vals, none) => forEachRow rows vals (written ++ [vals])

/-- The function `generateCSVFromXLSXFile` of `main.go`. -/
def generateCSVFromXLSXFile (env : Env) (xlFile : File) (sheetIndex : Int)
    (csvOpts : csvOptSetter) (outName : GoString) : Export :=
  -- determine writer: stdout if outName is empty, otherwise create the file
  match (if outName ≠ [] then env.createErr outName else none) with
  | some err => ⟨[], ',', [], .returned (some err)⟩
  | none =>
    let created := if outName ≠ [] then [outName] else []
    let sheetLen : Int := xlFile.Sheets.length
    if sheetLen = 0 then ⟨created, ',', [], .returned (some .noSheets)⟩
    else if sheetIndex ≥ sheetLen then
      ⟨created, ',', [], .returned (some (.noSheetAvailable sheetIndex (sheetLen - 1)))⟩
    else
      -- cw := csv.NewWriter(w); if csvOpts != nil { csvOpts(cw) }
      match csvOpts with
      | some .panics => ⟨created, ',', [], .panicked⟩
      | opts =>
        let comma := match opts with
          | some (.setsComma c) => c
          | _ => ','
        -- sheet := xlFile.Sheets[sheetIndex]
        if sheetIndex < 0 then ⟨created, comma, [], .panicked⟩
        else
          match xlFile.Sheets[sheetIndex.toNat]? with
          | none => ⟨created, comma, [], .panicked⟩
          | some sheet =>
            match forEachRow sheet.rows [] [] with
            | (written, some err) => ⟨created, comma, written, .returned (some err)⟩
            | (written, none) =>
              -- cw.Flush(); return cw.Error()
              ⟨created, comma, written, .returned (env.csvErr outName written)⟩

/-! ## `main` -/

/-- The command-line flags `-o`, `-i` and `-d`. -/
structure Flags where
  outFile : GoString
  sheetIndex : Int
  delimiter : GoString

/-- How the process ends. -/
inductive Exit where
  | success
  /-- `flag.Usage(); os.Exit(1)` -/
  | usage
  /-- `log.Fatal(err)` -/
  | fatal (err : Error)
  /-- `log.Fatalf("This XLSX file contains no sheets.\n")` -/
  | fatalNoSheets
  /-- `log.Fatalf("No sheet %d available, ... Or -1 to convert all sheets.\n", ...)` -/
  | fatalNoSheetAvailable (sheetIndex : Int) (maxIndex : Int)
  | panicked
  deriving DecidableEq, Repr

/-- One call of the exporter by the driver: the sheet index and output name it
passed, and what the call did. -/
structure Call where
  sheetIndex : Int
  outName : GoString
  result : Export
  deriving DecidableEq, Repr

/-- A run of the driver: the exporter calls it made, in order, and how the
process ended. -/
structure Run where
  calls : List Call
  exit : Exit
  deriving DecidableEq, Repr

/-- The output name `main` settles on (the variable `outName` after the two
`if`s that follow `outName := *outFile`). -/
def mainOutName (outFile arg0 : GoString) : GoString :=
  let outName := outFile
  let outName := if outName = [] then TrimSuffix arg0 ".xlsx".toList ++ ".csv".toList else outName
  let outName := if outName = "stdout".toList then [] else outName
  outName

/-- The option `delimiterOption` of `main`:
`func(cw *csv.Writer) { cw.Comma = ([]rune(*delimiter))[0] }`. -/
def delimiterOption (delimiter : GoString) : csvOptSetter :=
  match delimiter with
  | [] => some .panics
  | c :: _ => some (.setsComma c)

/-- The loop `for i := first; i <= last; i++ { ... }` of `main`, with the
number of iterations left, the loop variable and the calls made so far. -/
def mainLoop (env : Env) (xlFile : File) (opts : csvOptSetter) (outNameI : Int → GoString) :
    Nat → Int → List Call → Run
  | 0, _, calls => ⟨calls, .success⟩
  | k + 1, i, calls =>
    let r := generateCSVFromXLSXFile env xlFile i opts (outNameI i)
    let calls := calls ++ [⟨i, outNameI i, r⟩]
    match r.outcome with
    | .returned none => mainLoop env xlFile opts outNameI k (i + 1) calls
    | .returned (some err) => ⟨calls, .fatal err⟩
    | .panicked => ⟨calls, .panicked⟩

/-- The function `main` of `main.go`, after `flag.Parse()`: `args` are the
positional arguments and `openFile` is `xlsx.OpenFile`. -/
def main (os : GOOS) (env : Env) (openFile : GoString → Except Error File)
    (flags : Flags) (args : List GoString) : Run :=
  match args with
  | [arg0] =>
    match openFile arg0 with
    | .error err => ⟨[], .fatal err⟩
    | .ok xlFile =>
      let outName := mainOutName flags.outFile arg0
      let sheetIndex := if outName = [] ∧ flags.sheetIndex < 0 then 0 else flags.sheetIndex
      let sheetLen : Int := xlFile.Sheets.length
      if sheetLen = 0 then ⟨[], .fatalNoSheets⟩
      else if sheetIndex ≥ sheetLen then ⟨[], .fatalNoSheetAvailable sheetIndex (sheetLen - 1)⟩
      else
        let first := if sheetIndex ≥ 0 then sheetIndex else 0
        let last := if sheetIndex ≥ 0 then sheetIndex else sheetLen - 1
        let outNameI : Int → GoString :=
          if first = last then fun _ => csvName os outName (-1)
          else fun i => csvName os outName i
        mainLoop env xlFile (delimiterOption flags.delimiter) outNameI
          (last + 1 - first).toNat first []
  | _ => ⟨[], .usage⟩

/-! ## Definitions used to state the properties -/

/-- Reading a digit string back as a number. -/
def readBack (l : List Char) : Nat :=
  l.foldl (fun acc c => acc * 10 + (c.toNat - 48)) 0

/-- A character that can stand inside an extension after its dot: neither a
dot nor a path separator. -/
def plainChar (os : GOOS) (c : Char) : Prop :=
  c ≠ '.' ∧ IsPathSeparator os c = false

/-- The part of `csvName` that places the index in `base`. -/
def withIndex (base : GoString) (sheetIndex : Int) : GoString :=
  if sheetIndex ≥ 0 then
    if Contains base tokD then Replace base tokD (formatInt sheetIndex) 1
    else base ++ ['.'] ++ formatInt sheetIndex
  else Replace base tokD [] 1

/-- A row whose cells all format: a nil row, or a present row without a
failing cell. -/
def rowFormats : Row → Bool
  | none => true
  | some cells => cells.all fun c => match c with
    | Cell.value _ => true
    | Cell.failure _ => false

/-- The input file name with its extension replaced by `.csv`, in the words of
the specification. -/
def withCsvExt (os : GOOS) (path : GoString) : GoString :=
  TrimSuffix path (Ext os path) ++ ".csv".toList

/-! ## Sample workbooks and environments -/

/-- An environment in which every file can be created and the writer reports
no error. -/
def envOk : Env := ⟨fun _ => none, fun _ _ => none⟩

/-- A sheet with present, empty and nil rows. -/
def sampleSheet : Sheet :=
  ⟨[none, some [Cell.value "a".toList, Cell.value "b".toList], none, some [], none]⟩

/-- A workbook of two sheets, the first being `sampleSheet`. -/
def sampleBook : File :=
  ⟨[sampleSheet, ⟨[some [Cell.value "c".toList]]⟩]⟩

/-- A sheet with a cell that fails to format, in its second row. -/
def failingSheet : Sheet :=
  ⟨[some [Cell.value "a".toList],
    some [Cell.value "b".toList, Cell.failure (Error.external "bad cell".toList),
      Cell.failure (Error.external "later".toList)],
    some [Cell.value "c".toList]]⟩

/-- A workbook of two sheets, the first being `failingSheet`. -/
def failingBook : File :=
  ⟨[failingSheet, ⟨[some [Cell.value "z".toList]]⟩]⟩

/-- A workbook without sheets. -/
def emptyBook : File := ⟨[]⟩

/-! ## Decimal digits -/

theorem digitChar_readBack (d : Nat) (h : d < 10) : (Nat.digitChar d).toNat - 48 = d := by
  interval_cases d <;> rfl

theorem toDigitsCore_readBack (fuel : Nat) : ∀ (n : Nat) (acc : List Char), n < fuel →
    (Nat.toDigitsCore 10 fuel n acc).foldl (fun a c => a * 10 + (c.toNat - 48)) 0
      = acc.foldl (fun a c => a * 10 + (c.toNat - 48)) n := by
  induction fuel with
  | zero => intro n acc h; omega
  | succ fuel ih =>
    intro n acc h
    have hd := digitChar_readBack (n % 10) (Nat.mod_lt _ (by decide))
    unfold Nat.toDigitsCore
    by_cases h0 : n / 10 = 0
    · simp only [h0, if_true, List.foldl_cons, hd]
      congr 1; omega
    · simp only [h0, if_false]
      rw [ih (n / 10) _ (by omega)]
      simp only [List.foldl_cons, hd]
      congr 1; omega

theorem toDigits_readBack (n : Nat) : readBack (Nat.toDigits 10 n) = n := by
  unfold readBack Nat.toDigits
  rw [toDigitsCore_readBack (n + 1) n [] (by omega)]
  rfl

theorem formatInt_nonneg (i : Int) (h : 0 ≤ i) : formatInt i = Nat.toDigits 10 i.toNat := by
  unfold formatInt
  rw [if_neg (by omega)]

theorem formatInt_injective (i j : Int) (hi : 0 ≤ i) (hj : 0 ≤ j)
    (h : formatInt i = formatInt j) : i = j := by
  rw [formatInt_nonneg i hi, formatInt_nonneg j hj] at h
  have := congrArg readBack h
  rw [toDigits_readBack, toDigits_readBack] at this
  omega

theorem formatInt_ne_tokD (i : Int) (hi : 0 ≤ i) : tokD ≠ formatInt i := by
  intro h
  rw [formatInt_nonneg i hi] at h
  have h2 := congrArg readBack h
  rw [toDigits_readBack] at h2
  have h3 : readBack tokD = 52 := by decide
  rw [h3] at h2
  rw [← h2] at h
  revert h
  decide

/-! ## Extensions -/

theorem dot_not_separator (os : GOOS) : IsPathSeparator os '.' = false := by
  cases os <;> decide

theorem extLoop_shape (os : GOOS) : ∀ (before after e : List Char),
    extLoop os before after = e → e ≠ [] →
    ∃ b t, before.reverse = b ++ '.' :: t ∧ e = '.' :: (t ++ after) ∧ ∀ c ∈ t, plainChar os c := by
  intro before
  induction before with
  | nil => intro after e h he; simp [extLoop] at h; exact absurd h he
  | cons c before ih =>
    intro after e h he
    unfold extLoop at h
    by_cases hs : IsPathSeparator os c = true
    · rw [if_pos hs] at h; exact absurd h.symm he
    · rw [if_neg hs] at h
      by_cases hc : c = '.'
      · rw [if_pos hc] at h
        subst hc
        exact ⟨before.reverse, [], by simp, by simp [← h], by simp⟩
      · rw [if_neg hc] at h
        obtain ⟨b, t, hb, het, hp⟩ := ih (c :: after) e h he
        refine ⟨b, t ++ [c], ?_, ?_, ?_⟩
        · simp [hb]
        · simp [het]
        · intro x hx
          rcases List.mem_append.mp hx with hx | hx
          · exact hp x hx
          · simp only [List.mem_singleton] at hx
            subst hx
            exact ⟨hc, by simpa using hs⟩

theorem extLoop_plain (os : GOOS) : ∀ (l rest after : List Char), (∀ c ∈ l, plainChar os c) →
    extLoop os (l ++ rest) after = extLoop os rest (l.reverse ++ after) := by
  intro l
  induction l with
  | nil => intro rest after _; rfl
  | cons c l ih =>
    intro rest after h
    have hc := h c (List.mem_cons_self _ _)
    have hstep : extLoop os (c :: l ++ rest) after = extLoop os (l ++ rest) (c :: after) := by
      show extLoop os (c :: (l ++ rest)) after = _
      rw [extLoop, if_neg (by simp [hc.2]), if_neg hc.1]
    rw [hstep, ih rest (c :: after) (fun x hx => h x (List.mem_cons_of_mem _ hx))]
    simp

/-- A non-empty extension is a dot followed by plain characters, and the path
ends with it. -/
theorem Ext_shape (os : GOOS) (p e : GoString) (h : Ext os p = e) (he : e ≠ []) :
    ∃ b t, p = b ++ '.' :: t ∧ e = '.' :: t ∧ ∀ c ∈ t, plainChar os c := by
  obtain ⟨b, t, hb, het, hp⟩ := extLoop_shape os p.reverse [] e h he
  refine ⟨b, t, ?_, by simpa using het, hp⟩
  simpa using hb

/-- The extension of a path that ends with a dot followed by plain characters. -/
theorem Ext_of_shape (os : GOOS) (b t : GoString) (ht : ∀ c ∈ t, plainChar os c) :
    Ext os (b ++ '.' :: t) = '.' :: t := by
  unfold Ext
  have hrev : (b ++ '.' :: t).reverse = t.reverse ++ '.' :: b.reverse := by simp
  rw [hrev, extLoop_plain os t.reverse _ [] (fun c hc => ht c (List.mem_reverse.mp hc))]
  simp only [extLoop, dot_not_separator]
  simp

theorem HasSuffix_append (b e : GoString) : HasSuffix (b ++ e) e = true := by
  simp [HasSuffix]

theorem TrimSuffix_append (b e : GoString) : TrimSuffix (b ++ e) e = b := by
  unfold TrimSuffix
  rw [if_pos (HasSuffix_append b e)]
  simp

theorem HasSuffix_iff (s e : GoString) : HasSuffix s e = true ↔ ∃ b, s = b ++ e := by
  constructor
  · intro h
    simp only [HasSuffix, Bool.and_eq_true, decide_eq_true_eq, beq_iff_eq] at h
    exact ⟨s.take (s.length - e.length), by
      conv_lhs => rw [← List.take_append_drop (s.length - e.length) s]
      rw [h.2]⟩
  · rintro ⟨b, rfl⟩
    exact HasSuffix_append b e

/-! ## Searching and replacing -/

theorem startsWith_iff (s p : GoString) : startsWith s p = true ↔ p <+: s := by
  simp only [startsWith, Bool.and_eq_true, decide_eq_true_eq, beq_iff_eq]
  constructor
  · rintro ⟨_, h⟩
    exact ⟨s.drop p.length, by
      have := List.take_append_drop p.length s
      rw [h] at this; exact this⟩
  · rintro ⟨t, rfl⟩
    simp

theorem Index_eq_zero (s sub : GoString) (h : startsWith s sub = true) : Index s sub = 0 := by
  cases s <;> simp [Index, h]

theorem Index_ge (s sub : GoString) : -1 ≤ Index s sub := by
  induction s with
  | nil => unfold Index; split <;> omega
  | cons c t ih =>
    unfold Index
    split
    · omega
    · simp only; split <;> omega

/-- `Index` is negative exactly when `sub` does not occur in `s`. -/
theorem Index_neg_iff (s sub : GoString) : Index s sub < 0 ↔ ¬ sub <:+: s := by
  induction s with
  | nil =>
    unfold Index
    by_cases h : startsWith [] sub = true
    · rw [if_pos h]
      have := (startsWith_iff [] sub).mp h
      simp [this.isInfix]
    · rw [if_neg h]
      have h2 : ¬ sub <+: [] := fun hp => h ((startsWith_iff [] sub).mpr hp)
      simp only [List.prefix_nil] at h2
      simp [h2]
  | cons c t ih =>
    unfold Index
    by_cases h : startsWith (c :: t) sub = true
    · rw [if_pos h]
      have := (startsWith_iff _ sub).mp h
      simp [this.isInfix]
    · rw [if_neg h]
      have h2 : ¬ sub <+: c :: t := fun hp => h ((startsWith_iff _ sub).mpr hp)
      have hge := Index_ge t sub
      simp only
      rw [List.infix_cons_iff]
      constructor
      · intro hlt
        split at hlt
        · rename_i hneg
          exact fun hor => hor.elim h2 (ih.mp hneg)
        · omega
      · intro hno
        have : Index t sub < 0 := ih.mpr (fun hi => hno (Or.inr hi))
        rw [if_pos this]; omega

theorem Contains_iff (s sub : GoString) : Contains s sub = true ↔ sub <:+: s := by
  unfold Contains
  rw [decide_eq_true_eq]
  have := Index_neg_iff s sub
  constructor
  · intro h; by_contra hc; have := this.mpr hc; omega
  · intro h; by_contra hc; exact (this.mp (by omega)) h

/-- One replacement of a non-empty `old`: nothing changes when `old` does not
occur, otherwise the instance at `Index s old` is replaced. -/
theorem Replace_one (s old new : GoString) (hold : old ≠ []) (hne : old ≠ new) :
    Replace s old new 1 =
      if Index s old < 0 then s
      else s.take (Index s old).toNat ++ new ++ s.drop ((Index s old).toNat + old.length) := by
  unfold Replace
  rw [if_neg (by simp [hne])]
  have h1 : (if (1 : Int) < 0 then s.length + 1 else (1 : Int).toNat) = 1 := by simp
  rw [h1]
  unfold replaceLoop
  rw [if_neg hold]
  simp only [replaceLoop]

theorem Replace_absent (s old new : GoString) (h : ¬ old <:+: s) : Replace s old new 1 = s := by
  have hold : old ≠ [] := by
    rintro rfl
    exact h List.nil_infix
  unfold Replace
  split
  · rfl
  · have h1 : (if (1 : Int) < 0 then s.length + 1 else (1 : Int).toNat) = 1 := by simp
    rw [h1]
    unfold replaceLoop
    rw [if_neg hold]
    simp only
    rw [if_pos ((Index_neg_iff s old).mpr h)]

/-- The index of the first instance: when `sub` does not occur in `a` followed
by all but the last character of `sub`, the instance right after `a` is the
first one. -/
theorem Index_first (sub : GoString) (hsub : sub ≠ []) : ∀ (a b : GoString),
    ¬ sub <:+: a ++ sub.dropLast → Index (a ++ sub ++ b) sub = a.length := by
  intro a
  induction a with
  | nil =>
    intro b _
    simpa using Index_eq_zero (sub ++ b) sub ((startsWith_iff _ _).mpr (List.prefix_append _ _))
  | cons c a ih =>
    intro b h
    have hno : ¬ startsWith (c :: a ++ sub ++ b) sub = true := by
      intro hs
      have hp1 : sub <+: c :: a ++ sub ++ b := (startsWith_iff _ _).mp hs
      have hp2 : (c :: a ++ sub.dropLast) <+: c :: a ++ sub ++ b := by
        refine ⟨[sub.getLast hsub] ++ b, ?_⟩
        have := List.dropLast_append_getLast hsub
        conv_rhs => rw [← this]
        simp
      have hlen : sub.length ≤ (c :: a ++ sub.dropLast).length := by
        have : 0 < sub.length := List.length_pos.mpr hsub
        simp; omega
      exact h (List.prefix_of_prefix_length_le hp1 hp2 hlen).isInfix
    have hrec : Index (a ++ sub ++ b) sub = a.length :=
      ih b (fun hi => h (by
        have : a ++ sub.dropLast <:+: c :: a ++ sub.dropLast :=
          (List.suffix_cons c (a ++ sub.dropLast)).isInfix
        exact hi.trans this))
    show Index (c :: (a ++ sub ++ b)) sub = _
    have hno2 : ¬ startsWith (c :: (a ++ sub ++ b)) sub = true := by simpa using hno
    rw [Index, if_neg hno2]
    simp only [hrec]
    rw [if_neg (by omega)]
    simp

/-- Replacing once replaces the first instance. -/
theorem Replace_first (sub new a b : GoString) (hsub : sub ≠ []) (hne : sub ≠ new)
    (h : ¬ sub <:+: a ++ sub.dropLast) : Replace (a ++ sub ++ b) sub new 1 = a ++ new ++ b := by
  rw [Replace_one _ _ _ hsub hne, Index_first sub hsub a b h]
  rw [if_neg (by omega)]
  simp [List.take_append_eq_append_take, List.drop_append_eq_append_drop]

theorem tokD_ne_nil : tokD ≠ [] := by decide

/-! ## The shape of `csvName` -/

theorem csv_plain (os : GOOS) : ∀ c ∈ "csv".toList, plainChar os c := by
  intro c hc
  simp only [String.toList, List.mem_cons, List.mem_singleton, List.not_mem_nil, or_false] at hc
  rcases hc with rfl | rfl | rfl <;> cases os <;> exact ⟨by decide, by decide⟩

/-- A pattern without extension: the index is placed in the whole pattern and
`.csv` is appended. -/
theorem csvName_no_ext (os : GOOS) (p : GoString) (i : Int) (hp : p ≠ [])
    (he : Ext os p = []) : csvName os p i = withIndex p i ++ ".csv".toList := by
  unfold csvName withIndex
  simp only [hp, he, if_false, if_true]

/-- A pattern `b ++ e` with extension `e`: the index is placed in `b` and `e`
is kept. -/
theorem csvName_ext (os : GOOS) (b t : GoString) (i : Int)
    (ht : ∀ c ∈ t, plainChar os c) :
    csvName os (b ++ '.' :: t) i = withIndex b i ++ '.' :: t := by
  have he := Ext_of_shape os b t ht
  unfold csvName withIndex
  simp only [he, TrimSuffix_append]
  simp

/-- Every derived name of a non-empty pattern is the indexed base followed by
an extension of a dot and plain characters. -/
theorem csvName_split (os : GOOS) (p : GoString) (hp : p ≠ []) :
    ∃ base t, (∀ c ∈ t, plainChar os c) ∧ base ++ '.' :: t ≠ [] ∧
      ∀ i, csvName os p i = withIndex base i ++ '.' :: t := by
  by_cases he : Ext os p = []
  · exact ⟨p, "csv".toList, csv_plain os, by simp, fun i => csvName_no_ext os p i hp he⟩
  · obtain ⟨b, t, hpb, _, ht⟩ := Ext_shape os p _ rfl he
    subst hpb
    exact ⟨b, t, ht, by simp, fun i => csvName_ext os b t i ht⟩

theorem csvName_ne_nil (os : GOOS) (p : GoString) (i : Int) (hp : p ≠ []) :
    csvName os p i ≠ [] := by
  obtain ⟨base, t, _, _, h⟩ := csvName_split os p hp
  rw [h i]
  simp

/-- For non-negative indices the indexed base is a fixed text around the
decimal form of the index. -/
theorem withIndex_frame (base : GoString) :
    ∃ a b, ∀ i : Int, 0 ≤ i → withIndex base i = a ++ formatInt i ++ b := by
  by_cases hc : Contains base tokD = true
  · refine ⟨base.take (Index base tokD).toNat,
      base.drop ((Index base tokD).toNat + tokD.length), fun i hi => ?_⟩
    unfold withIndex
    rw [if_pos (by omega), if_pos hc, Replace_one _ _ _ tokD_ne_nil (formatInt_ne_tokD i hi)]
    have : ¬ Index base tokD < 0 := by
      unfold Contains at hc
      simpa using hc
    rw [if_neg this]
  · refine ⟨base ++ ['.'], [], fun i hi => ?_⟩
    unfold withIndex
    rw [if_pos (by omega), if_neg hc]
    simp

/-- Distinct non-negative sheet indices give distinct names. -/
theorem csvName_injective (os : GOOS) (p : GoString) (hp : p ≠ []) (i j : Int)
    (hi : 0 ≤ i) (hj : 0 ≤ j) (h : csvName os p i = csvName os p j) : i = j := by
  obtain ⟨base, t, _, _, hn⟩ := csvName_split os p hp
  obtain ⟨a, b, hf⟩ := withIndex_frame base
  rw [hn i, hn j, hf i hi, hf j hj] at h
  have h1 := List.append_cancel_right h
  have h2 := List.append_cancel_right h1
  exact formatInt_injective i j hi hj (List.append_cancel_left h2)

/-! ## The row and cell walks -/

theorem forEachCell_values (strs vals : List GoString) :
    forEachCell (strs.map Cell.value) vals = (vals ++ strs, none) := by
  induction strs generalizing vals with
  | nil => simp [forEachCell]
  | cons s strs ih => simp [forEachCell, ih]

theorem forEachCell_failure (strs vals : List GoString) (err : Error) (rest : List Cell) :
    forEachCell (strs.map Cell.value ++ Cell.failure err :: rest) vals = (vals ++ strs, some err) := by
  induction strs generalizing vals with
  | nil => simp [forEachCell]
  | cons s strs ih => simp [forEachCell, ih]

theorem forEachCell_ok (cells : List Cell) : ∀ (vals v : List GoString),
    forEachCell cells vals = (v, none) → ∃ strs, cells = strs.map Cell.value ∧ v = vals ++ strs := by
  induction cells with
  | nil => intro vals v h; simp [forEachCell] at h; exact ⟨[], by simp, by simp [h]⟩
  | cons c cells ih =>
    intro vals v h
    cases c with
    | failure err => simp [forEachCell] at h
    | value str =>
      simp only [forEachCell] at h
      obtain ⟨strs, hc, hv⟩ := ih _ _ h
      exact ⟨str :: strs, by simp [hc], by simp [hv]⟩

theorem forEachCell_of_formats (cells : List Cell) (h : rowFormats (some cells) = true) :
    ∃ strs, forEachCell cells [] = (strs, none) := by
  suffices H : ∀ vals, ∃ strs, forEachCell cells vals = (strs, none) from H []
  induction cells with
  | nil => intro vals; exact ⟨vals, rfl⟩
  | cons c cells ih =>
    intro vals
    simp only [rowFormats, List.all_cons, Bool.and_eq_true] at h
    cases c with
    | failure err => simp at h
    | value str =>
      simp only [forEachCell]
      exact ih (by simpa [rowFormats] using h.2) _

/-- The records already written are kept in front; the walk only appends. -/
theorem forEachRow_written (rows : List Row) : ∀ (vals : List GoString) (written : List Record),
    forEachRow rows vals written
      = (written ++ (forEachRow rows vals []).1, (forEachRow rows vals []).2) := by
  induction rows with
  | nil => intro vals written; simp [forEachRow]
  | cons r rows ih =>
    intro vals written
    cases r with
    | none =>
      simp only [forEachRow]
      rw [ih vals (written ++ [vals]), ih vals ([] ++ [vals])]
      simp
    | some cells =>
      simp only [forEachRow]
      rcases hfc : forEachCell cells [] with ⟨v, _ | err⟩
      · simp only
        rw [ih v (written ++ [v]), ih v ([] ++ [v])]
        simp
      · simp

theorem forEachRow_nil_row (rows : List Row) (vals : List GoString) :
    forEachRow (none :: rows) vals []
      = (vals :: (forEachRow rows vals []).1, (forEachRow rows vals []).2) := by
  simp only [forEachRow]
  rw [forEachRow_written]
  simp

theorem forEachRow_present_ok (cells : List Cell) (rows : List Row) (vals v : List GoString)
    (h : forEachCell cells [] = (v, none)) :
    forEachRow (some cells :: rows) vals []
      = (v :: (forEachRow rows v []).1, (forEachRow rows v []).2) := by
  simp only [forEachRow, h]
  rw [forEachRow_written]
  simp

theorem forEachRow_present_err (cells : List Cell) (rows : List Row) (vals v : List GoString)
    (err : Error) (h : forEachCell cells [] = (v, some err)) :
    forEachRow (some cells :: rows) vals [] = ([], some err) := by
  simp only [forEachRow, h]

/-- A walk that ends without error wrote one record per row, and the record of
a present row holds its cells' values in order. -/
theorem forEachRow_ok (rows : List Row) : ∀ (vals : List GoString),
    (forEachRow rows vals []).2 = none →
    (forEachRow rows vals []).1.length = rows.length ∧
    ∀ (k : Nat) (cells : List Cell), rows[k]? = some (some cells) →
      ∃ strs : List GoString,
        cells = strs.map Cell.value ∧ (forEachRow rows vals []).1[k]? = some strs := by
  induction rows with
  | nil => intro vals _; simp [forEachRow]
  | cons r rows ih =>
    intro vals h
    cases r with
    | none =>
      rw [forEachRow_nil_row] at h ⊢
      obtain ⟨hl, hr⟩ := ih vals h
      refine ⟨by simp [hl], fun k cells hk => ?_⟩
      cases k with
      | zero => simp at hk
      | succ k => simpa using hr k cells (by simpa using hk)
    | some cells0 =>
      rcases hfc : forEachCell cells0 [] with ⟨v, _ | err⟩
      · rw [forEachRow_present_ok _ _ _ _ hfc] at h ⊢
        obtain ⟨hl, hr⟩ := ih v h
        refine ⟨by simp [hl], fun k cells hk => ?_⟩
        cases k with
        | zero =>
          simp only [List.getElem?_cons_zero, Option.some.injEq] at hk
          subst hk
          obtain ⟨strs, hc, hv⟩ := forEachCell_ok _ _ _ hfc
          exact ⟨strs, hc, by simp [hv]⟩
        | succ k => simpa using hr k cells (by simpa using hk)
      · rw [forEachRow_present_err _ _ _ _ _ hfc] at h
        simp at h

/-- A walk over rows that all format ends without error. -/
theorem forEachRow_of_formats (rows : List Row) : ∀ (vals : List GoString),
    (∀ r ∈ rows, rowFormats r = true) →
    (forEachRow rows vals []).2 = none ∧ (forEachRow rows vals []).1.length = rows.length := by
  induction rows with
  | nil => intro vals _; simp [forEachRow]
  | cons r rows ih =>
    intro vals h
    have hrest : ∀ r ∈ rows, rowFormats r = true := fun x hx => h x (List.mem_cons_of_mem _ hx)
    cases r with
    | none =>
      rw [forEachRow_nil_row]
      obtain ⟨h1, h2⟩ := ih vals hrest
      exact ⟨h1, by simp [h2]⟩
    | some cells =>
      obtain ⟨v, hv⟩ := forEachCell_of_formats cells (h _ (List.mem_cons_self _ _))
      rw [forEachRow_present_ok _ _ _ _ hv]
      obtain ⟨h1, h2⟩ := ih v hrest
      exact ⟨h1, by simp [h2]⟩

/-- The first failing cell in row-major order stops the walk with its error,
after one record for each earlier row. -/
theorem forEachRow_first_failure (pre : List Row) : ∀ (vals : List GoString)
    (strs : List GoString) (err : Error) (rest : List Cell) (post : List Row),
    (∀ r ∈ pre, rowFormats r = true) →
    (forEachRow (pre ++ some (strs.map Cell.value ++ Cell.failure err :: rest) :: post) vals []).2
        = some err ∧
    (forEachRow (pre ++ some (strs.map Cell.value ++ Cell.failure err :: rest) :: post) vals []).1
        = (forEachRow pre vals []).1 := by
  induction pre with
  | nil =>
    intro vals strs err rest post _
    rw [List.nil_append, forEachRow_present_err _ _ _ _ _ (forEachCell_failure strs [] err rest)]
    simp [forEachRow]
  | cons r pre ih =>
    intro vals strs err rest post h
    have hrest : ∀ r ∈ pre, rowFormats r = true := fun x hx => h x (List.mem_cons_of_mem _ hx)
    cases r with
    | none =>
      rw [List.cons_append, forEachRow_nil_row, forEachRow_nil_row]
      obtain ⟨h1, h2⟩ := ih vals strs err rest post hrest
      exact ⟨h1, by simp [h2]⟩
    | some cells =>
      obtain ⟨v, hv⟩ := forEachCell_of_formats cells (h _ (List.mem_cons_self _ _))
      rw [List.cons_append, forEachRow_present_ok _ _ _ _ hv, forEachRow_present_ok _ _ _ _ hv]
      obtain ⟨h1, h2⟩ := ih v strs err rest post hrest
      exact ⟨h1, by simp [h2]⟩

/-- The record written for a nil row: the buffer the walk started with when no
present row precedes it, otherwise the record of the nearest present row
before it. -/
theorem forEachRow_nil_record (rows : List Row) : ∀ (vals : List GoString) (k : Nat),
    k < (forEachRow rows vals []).1.length → rows[k]? = some none →
    ((∀ j, j < k → rows[j]? = some none) → (forEachRow rows vals []).1[k]? = some vals) ∧
    (∀ j, j < k → rows[j]? ≠ some none → (∀ m, j < m → m < k → rows[m]? = some none) →
      (forEachRow rows vals []).1[k]? = (forEachRow rows vals []).1[j]?) := by
  induction rows with
  | nil => intro vals k hk; simp [forEachRow] at hk
  | cons r rows ih =>
    intro vals k hk hrow
    cases r with
    | none =>
      rw [forEachRow_nil_row] at hk ⊢
      cases k with
      | zero => simp
      | succ k =>
        have hk2 : k < (forEachRow rows vals []).1.length := by simpa using hk
        obtain ⟨ih1, ih2⟩ := ih vals k hk2 (by simpa using hrow)
        constructor
        · intro hall
          simpa using ih1 (fun j hj => by simpa using hall (j + 1) (by omega))
        · intro j hj hne hbetween
          cases j with
          | zero => simp at hne
          | succ j =>
            simpa using ih2 j (by omega) (by simpa using hne)
              (fun m h1 h2 => by simpa using hbetween (m + 1) (by omega) (by omega))
    | some cells =>
      rcases hfc : forEachCell cells [] with ⟨v, _ | err⟩
      · rw [forEachRow_present_ok _ _ _ _ hfc] at hk ⊢
        cases k with
        | zero => simp at hrow
        | succ k =>
          have hk2 : k < (forEachRow rows v []).1.length := by simpa using hk
          obtain ⟨ih1, ih2⟩ := ih v k hk2 (by simpa using hrow)
          constructor
          · intro hall
            have := hall 0 (by omega)
            simp at this
          · intro j hj hne hbetween
            cases j with
            | zero =>
              simpa using ih1 (fun m hm => by simpa using hbetween (m + 1) (by omega) (by omega))
            | succ j =>
              simpa using ih2 j (by omega) (by simpa using hne)
                (fun m h1 h2 => by simpa using hbetween (m + 1) (by omega) (by omega))
      · rw [forEachRow_present_err _ _ _ _ _ hfc] at hk
        simp at hk

/-- A row with a cell that fails to format splits at its first failing cell. -/
theorem first_failing_cell (cells : List Cell) (h : rowFormats (some cells) = false) :
    ∃ (strs : List GoString) (err : Error) (rest : List Cell),
      cells = strs.map Cell.value ++ Cell.failure err :: rest := by
  induction cells with
  | nil => simp [rowFormats] at h
  | cons c cells ih =>
    cases c with
    | failure err => exact ⟨[], err, cells, by simp⟩
    | value str =>
      have h2 : rowFormats (some cells) = false := by
        simpa [rowFormats] using h
      obtain ⟨strs, err, rest, hc⟩ := ih h2
      exact ⟨str :: strs, err, rest, by simp [hc]⟩

/-- A sheet with a cell that fails to format splits at the first such cell in
row-major order. -/
theorem first_failure_split (rows : List Row) (h : ∃ r ∈ rows, rowFormats r = false) :
    ∃ (pre post : List Row) (strs : List GoString) (err : Error) (rest : List Cell),
      rows = pre ++ some (strs.map Cell.value ++ Cell.failure err :: rest) :: post ∧
      ∀ r ∈ pre, rowFormats r = true := by
  induction rows with
  | nil => obtain ⟨r, hr, _⟩ := h; simp at hr
  | cons r0 rows ih =>
    by_cases h0 : rowFormats r0 = true
    · have hrest : ∃ r ∈ rows, rowFormats r = false := by
        obtain ⟨r, hr, hf⟩ := h
        rcases List.mem_cons.mp hr with rfl | hr
        · rw [h0] at hf; cases hf
        · exact ⟨r, hr, hf⟩
      obtain ⟨pre, post, strs, err, rest, hrows, hpre⟩ := ih hrest
      refine ⟨r0 :: pre, post, strs, err, rest, by simp [hrows], ?_⟩
      intro r hr
      rcases List.mem_cons.mp hr with rfl | hr
      · exact h0
      · exact hpre r hr
    · cases r0 with
      | none => simp [rowFormats] at h0
      | some cells =>
        obtain ⟨strs, err, rest, hc⟩ := first_failing_cell cells (by simpa using h0)
        exact ⟨[], rows, strs, err, rest, by simp [hc], by simp⟩

/-! ## The exporter as a whole -/

/-- Once the destination is open, the option applied and the sheet selected,
the export is the row walk followed by the flush. -/
theorem generate_reaches (env : Env) (xlFile : File) (sheetIndex : Int) (csvOpts : csvOptSetter)
    (outName : GoString) (sheet : Sheet) (hidx : 0 ≤ sheetIndex)
    (hsheet : xlFile.Sheets[sheetIndex.toNat]? = some sheet)
    (hdest : outName = [] ∨ env.createErr outName = none)
    (hopts : csvOpts ≠ some OptCall.panics) :
    (generateCSVFromXLSXFile env xlFile sheetIndex csvOpts outName).written
        = (forEachRow sheet.rows [] []).1 ∧
    (generateCSVFromXLSXFile env xlFile sheetIndex csvOpts outName).outcome
        = (match (forEachRow sheet.rows [] []).2 with
          | some err => Outcome.returned (some err)
          | none => Outcome.returned (env.csvErr outName (forEachRow sheet.rows [] []).1)) ∧
    (generateCSVFromXLSXFile env xlFile sheetIndex csvOpts outName).created
        = (if outName ≠ [] then [outName] else []) := by
  have hlt : sheetIndex.toNat < xlFile.Sheets.length := by
    rcases Nat.lt_or_ge sheetIndex.toNat xlFile.Sheets.length with h | h
    · exact h
    · rw [List.getElem?_eq_none h] at hsheet; cases hsheet
  have hcreate : (if outName ≠ [] then env.createErr outName else none) = none := by
    rcases hdest with h | h
    · simp [h]
    · simp [h]
  have h0 : ¬ ((xlFile.Sheets.length : Int) = 0) := by omega
  have h1 : ¬ (sheetIndex ≥ (xlFile.Sheets.length : Int)) := by omega
  have h2 : ¬ (sheetIndex < 0) := by omega
  unfold generateCSVFromXLSXFile
  rw [hcreate]
  simp only [h0, h1, h2, if_false, hsheet]
  rcases hrows : forEachRow sheet.rows [] [] with ⟨written, _ | err⟩ <;>
    rcases csvOpts with _ | _ | _ <;> first | exact absurd rfl hopts | simp

/-- Records are written only by the row walk of the selected sheet. -/
theorem generate_written_cases (env : Env) (xlFile : File) (sheetIndex : Int)
    (csvOpts : csvOptSetter) (outName : GoString) :
    (generateCSVFromXLSXFile env xlFile sheetIndex csvOpts outName).written = [] ∨
    (0 ≤ sheetIndex ∧ ∃ sheet, xlFile.Sheets[sheetIndex.toNat]? = some sheet ∧
      (generateCSVFromXLSXFile env xlFile sheetIndex csvOpts outName).written
        = (forEachRow sheet.rows [] []).1) := by
  unfold generateCSVFromXLSXFile
  dsimp only
  repeat' split
  all_goals first
    | (left; rfl)
    | (right; refine ⟨by omega, _, by assumption, ?_⟩; simp_all)

/-- A successful export went through the whole row walk of the selected sheet
without error, and created the destination file when one was named. -/
theorem generate_success (env : Env) (xlFile : File) (sheetIndex : Int)
    (csvOpts : csvOptSetter) (outName : GoString)
    (hok : (generateCSVFromXLSXFile env xlFile sheetIndex csvOpts outName).outcome
      = Outcome.returned none) :
    0 ≤ sheetIndex ∧ ∃ sheet, xlFile.Sheets[sheetIndex.toNat]? = some sheet ∧
      (forEachRow sheet.rows [] []).2 = none ∧
      (generateCSVFromXLSXFile env xlFile sheetIndex csvOpts outName).written
        = (forEachRow sheet.rows [] []).1 ∧
      (generateCSVFromXLSXFile env xlFile sheetIndex csvOpts outName).created
        = (if outName ≠ [] then [outName] else []) := by
  revert hok
  unfold generateCSVFromXLSXFile
  dsimp only
  repeat' split
  all_goals first
    | (intro hok; cases hok)
    | (intro _; refine ⟨by omega, _, by assumption, ?_⟩; simp_all)

/-- The record of a present row that was written holds the row's values, also
when a later row stops the walk. -/
theorem forEachRow_present_record (rows : List Row) : ∀ (vals : List GoString) (k : Nat)
    (cells : List Cell), k < (forEachRow rows vals []).1.length → rows[k]? = some (some cells) →
    ∃ strs : List GoString,
      cells = strs.map Cell.value ∧ (forEachRow rows vals []).1[k]? = some strs := by
  induction rows with
  | nil => intro vals k cells hk; simp [forEachRow] at hk
  | cons r rows ih =>
    intro vals k cells hk hrow
    cases r with
    | none =>
      rw [forEachRow_nil_row] at hk ⊢
      cases k with
      | zero => simp at hrow
      | succ k => simpa using ih vals k cells (by simpa using hk) (by simpa using hrow)
    | some cells0 =>
      rcases hfc : forEachCell cells0 [] with ⟨v, _ | err⟩
      · rw [forEachRow_present_ok _ _ _ _ hfc] at hk ⊢
        cases k with
        | zero =>
          simp only [List.getElem?_cons_zero, Option.some.injEq] at hrow
          subst hrow
          obtain ⟨strs, hc, hv⟩ := forEachCell_ok _ _ _ hfc
          exact ⟨strs, hc, by simp [hv]⟩
        | succ k => simpa using ih v k cells (by simpa using hk) (by simpa using hrow)
      · rw [forEachRow_present_err _ _ _ _ _ hfc] at hk
        simp at hk

/-! ## The claims about `generateCSVFromXLSXFile` -/

/-- C6: a successful export hands the CSV writer exactly one record per row of
the selected sheet, in row order, and the record at the position of every
present row is the list of that row's formatted cell values, left to right.
(An export that succeeds had a sheet index in range, so the sheet exists.) -/
theorem export_one_record_per_row (env : Env) (xlFile : File) (sheetIndex : Int)
    (csvOpts : csvOptSetter) (outName : GoString)
    (hok : (generateCSVFromXLSXFile env xlFile sheetIndex csvOpts outName).outcome
      = Outcome.returned none) :
    0 ≤ sheetIndex ∧ ∃ sheet, xlFile.Sheets[sheetIndex.toNat]? = some sheet ∧
      (generateCSVFromXLSXFile env xlFile sheetIndex csvOpts outName).written.length
        = sheet.rows.length ∧
      ∀ (k : Nat) (cells : List Cell), sheet.rows[k]? = some (some cells) →
        ∃ strs : List GoString, cells = strs.map Cell.value ∧
          (generateCSVFromXLSXFile env xlFile sheetIndex csvOpts outName).written[k]?
            = some strs := by
  obtain ⟨h0, sheet, hs, hnone, hw, _⟩ :=
    generate_success env xlFile sheetIndex csvOpts outName hok
  obtain ⟨hl, hr⟩ := forEachRow_ok sheet.rows [] hnone
  refine ⟨h0, sheet, hs, by rw [hw]; exact hl, fun k cells hk => ?_⟩
  rw [hw]
  exact hr k cells hk

theorem export_one_record_per_row_witness :
    0 ≤ (0 : Int) ∧ ∃ sheet, sampleBook.Sheets[(0 : Int).toNat]? = some sheet ∧
      (generateCSVFromXLSXFile envOk sampleBook 0 none "out.csv".toList).written.length
        = sheet.rows.length ∧
      ∀ (k : Nat) (cells : List Cell), sheet.rows[k]? = some (some cells) →
        ∃ strs : List GoString, cells = strs.map Cell.value ∧
          (generateCSVFromXLSXFile envOk sampleBook 0 none "out.csv".toList).written[k]?
            = some strs :=
  export_one_record_per_row envOk sampleBook 0 none "out.csv".toList (by decide)

/-- C7, as the code behaves: exporting a workbook without sheets writes no
record and, for every sheet index, fails with the no-sheets error when the
destination is standard output or its file could be created; a named
destination file is created or truncated first, and when that fails the
creation error is returned instead. -/
theorem export_no_sheets (env : Env) (sheetIndex : Int) (csvOpts : csvOptSetter)
    (outName : GoString) :
    generateCSVFromXLSXFile env emptyBook sheetIndex csvOpts outName =
      if outName = [] then ⟨[], ',', [], Outcome.returned (some Error.noSheets)⟩
      else match env.createErr outName with
        | some err => ⟨[], ',', [], Outcome.returned (some err)⟩
        | none => ⟨[outName], ',', [], Outcome.returned (some Error.noSheets)⟩ := by
  unfold generateCSVFromXLSXFile emptyBook
  by_cases h : outName = []
  · simp [h]
  · rcases hc : env.createErr outName with _ | err <;> simp [h, hc]

/-- C7 fails as stated: exporting the workbook without sheets to `out.csv`
returns the no-sheets error only after `out.csv` has been created or
truncated. -/
theorem zero_sheet_export_touches_destination :
    (generateCSVFromXLSXFile envOk emptyBook 0 none "out.csv".toList).outcome
        = Outcome.returned (some Error.noSheets) ∧
    (generateCSVFromXLSXFile envOk emptyBook 0 none "out.csv".toList).created
        = ["out.csv".toList] ∧
    (generateCSVFromXLSXFile envOk emptyBook 0 none "out.csv".toList).created ≠ [] := by
  decide

/-- C8: when the traversal of an in-range sheet is reached (the destination is
open and the option did not panic, so that formatted values are computed at
all) and some cell of the sheet fails to format, the sheet splits at the first
failing cell in row-major order (rows `pre` that all format, then a row whose
cells format up to a failing cell), the export returns exactly the error of
that cell, and the records written are those of the rows before it: one per
earlier row, none for the row of that cell or any later row. -/
theorem export_first_cell_failure (env : Env) (xlFile : File) (sheetIndex : Int)
    (csvOpts : csvOptSetter) (outName : GoString) (sheet : Sheet)
    (hidx : 0 ≤ sheetIndex) (hsheet : xlFile.Sheets[sheetIndex.toNat]? = some sheet)
    (hdest : outName = [] ∨ env.createErr outName = none)
    (hopts : csvOpts ≠ some OptCall.panics)
    (hfail : ∃ r ∈ sheet.rows, rowFormats r = false) :
    ∃ (pre post : List Row) (strs : List GoString) (err : Error) (rest : List Cell),
      sheet.rows = pre ++ some (strs.map Cell.value ++ Cell.failure err :: rest) :: post ∧
      (∀ r ∈ pre, rowFormats r = true) ∧
      (generateCSVFromXLSXFile env xlFile sheetIndex csvOpts outName).outcome
          = Outcome.returned (some err) ∧
      (generateCSVFromXLSXFile env xlFile sheetIndex csvOpts outName).written
          = (forEachRow pre [] []).1 ∧
      (generateCSVFromXLSXFile env xlFile sheetIndex csvOpts outName).written.length
          = pre.length := by
  obtain ⟨pre, post, strs, err, rest, hrows, hpre⟩ := first_failure_split sheet.rows hfail
  obtain ⟨hw, ho, _⟩ :=
    generate_reaches env xlFile sheetIndex csvOpts outName sheet hidx hsheet hdest hopts
  obtain ⟨h1, h2⟩ := forEachRow_first_failure pre [] strs err rest post hpre
  rw [hrows] at hw ho
  rw [h1] at ho
  rw [h2] at hw
  exact ⟨pre, post, strs, err, rest, hrows, hpre, ho, hw, by
    rw [hw]; exact (forEachRow_of_formats pre [] hpre).2⟩

theorem export_first_cell_failure_witness :
    ∃ (pre post : List Row) (strs : List GoString) (err : Error) (rest : List Cell),
      failingSheet.rows
        = pre ++ some (strs.map Cell.value ++ Cell.failure err :: rest) :: post ∧
      (∀ r ∈ pre, rowFormats r = true) ∧
      (generateCSVFromXLSXFile envOk failingBook 0 none "out.csv".toList).outcome
          = Outcome.returned (some err) ∧
      (generateCSVFromXLSXFile envOk failingBook 0 none "out.csv".toList).written
          = (forEachRow pre [] []).1 ∧
      (generateCSVFromXLSXFile envOk failingBook 0 none "out.csv".toList).written.length
          = pre.length :=
  export_first_cell_failure envOk failingBook 0 none "out.csv".toList failingSheet
    (by decide) (by decide) (Or.inr rfl) (by decide) (by decide)

/-- The sample export with a failing cell: the error is that of the first
failing cell and only the record of the first row was written. -/
theorem export_failingBook :
    (generateCSVFromXLSXFile envOk failingBook 0 none "out.csv".toList).outcome
        = Outcome.returned (some (Error.external "bad cell".toList)) ∧
    (generateCSVFromXLSXFile envOk failingBook 0 none "out.csv".toList).written
        = [["a".toList]] := by
  decide

/-- C10: the record written for a nil row is empty when no present row
precedes it, and otherwise equals the record of the nearest present row before
it, which holds that row's formatted values. -/
theorem export_nil_row_record (env : Env) (xlFile : File) (sheetIndex : Int)
    (csvOpts : csvOptSetter) (outName : GoString) (sheet : Sheet) (k : Nat)
    (hsheet : xlFile.Sheets[sheetIndex.toNat]? = some sheet)
    (hk : k < (generateCSVFromXLSXFile env xlFile sheetIndex csvOpts outName).written.length)
    (hrow : sheet.rows[k]? = some none) :
    ((∀ j, j < k → sheet.rows[j]? = some none) →
      (generateCSVFromXLSXFile env xlFile sheetIndex csvOpts outName).written[k]? = some []) ∧
    (∀ (j : Nat) (cells : List Cell), j < k → sheet.rows[j]? = some (some cells) →
      (∀ m, j < m → m < k → sheet.rows[m]? = some none) →
      ∃ strs : List GoString, cells = strs.map Cell.value ∧
        (generateCSVFromXLSXFile env xlFile sheetIndex csvOpts outName).written[j]? = some strs ∧
        (generateCSVFromXLSXFile env xlFile sheetIndex csvOpts outName).written[k]?
          = some strs) := by
  rcases generate_written_cases env xlFile sheetIndex csvOpts outName with h | ⟨_, sheet2, hs2, hw⟩
  · rw [h] at hk; simp at hk
  · rw [hsheet] at hs2
    cases hs2
    rw [hw] at hk ⊢
    obtain ⟨h1, h2⟩ := forEachRow_nil_record sheet.rows [] k hk hrow
    refine ⟨h1, fun j cells hj hjrow hbetween => ?_⟩
    obtain ⟨strs, hc, hrec⟩ := forEachRow_present_record sheet.rows [] j cells (by omega) hjrow
    refine ⟨strs, hc, hrec, ?_⟩
    rw [h2 j hj (by rw [hjrow]; simp) hbetween, hrec]

theorem export_nil_row_record_witness :
    ((∀ j, j < 2 → sampleSheet.rows[j]? = some none) →
      (generateCSVFromXLSXFile envOk sampleBook 0 none "out.csv".toList).written[2]? = some []) ∧
    (∀ (j : Nat) (cells : List Cell), j < 2 → sampleSheet.rows[j]? = some (some cells) →
      (∀ m, j < m → m < 2 → sampleSheet.rows[m]? = some none) →
      ∃ strs : List GoString, cells = strs.map Cell.value ∧
        (generateCSVFromXLSXFile envOk sampleBook 0 none "out.csv".toList).written[j]? = some strs ∧
        (generateCSVFromXLSXFile envOk sampleBook 0 none "out.csv".toList).written[2]?
          = some strs) :=
  export_nil_row_record envOk sampleBook 0 none "out.csv".toList sampleSheet 2
    (by decide) (by decide) (by decide)

/-! ## The claims about `csvName` -/

/-- A token that lies in `base ++ e`, where `e` begins with a dot and holds no
token, lies in `base`. -/
theorem token_in_base (a b base t : GoString) (h : a ++ tokD ++ b = base ++ '.' :: t)
    (hno : ¬ tokD <:+: '.' :: t) : ∃ b2, base = a ++ tokD ++ b2 ∧ b = b2 ++ '.' :: t := by
  rcases List.append_eq_append_iff.mp h with ⟨a2, h1, h2⟩ | ⟨c, h1, h2⟩
  · exact ⟨a2, h1, h2⟩
  · rcases List.append_eq_append_iff.mp h1 with ⟨a3, h3, h4⟩ | ⟨c2, h3, h4⟩
    · -- `c` is an end of the token
      rcases a3 with _ | ⟨x, _ | ⟨y, a3⟩⟩
      · simp only [List.nil_append] at h4
        subst h4
        simp [tokD] at h2
      · simp only [tokD, List.cons_append, List.nil_append, List.cons.injEq] at h4
        obtain ⟨_, rfl⟩ := h4
        simp at h2
      · have hc : c = [] := by
          have := congrArg List.length h4
          simp only [tokD, List.length_cons, List.length_append, List.length_nil] at this
          exact List.length_eq_zero.mp (by omega)
        subst hc
        refine ⟨[], ?_, by simpa using h2.symm⟩
        simpa using h1.symm
    · exfalso
      apply hno
      rw [h2, h4]
      exact ⟨c2, b, by simp⟩

/-- What holds of C1 on the code: when the first `%d` of the pattern lies
before its extension (the extension holds no `%d`), a non-negative index
replaces that first `%d` by its decimal form and leaves the rest verbatim,
`.csv` being appended when the pattern has no extension. -/
theorem csvName_replaces_first (os : GOOS) (a b : GoString) (i : Int) (hi : 0 ≤ i)
    (hfirst : ¬ tokD <:+: a ++ ['%'])
    (hext : ¬ tokD <:+: Ext os (a ++ tokD ++ b)) :
    csvName os (a ++ tokD ++ b) i =
      a ++ formatInt i ++ b ++ (if Ext os (a ++ tokD ++ b) = [] then ".csv".toList else []) := by
  have hp : a ++ tokD ++ b ≠ [] := by simp [tokD]
  have hrep : ∀ b2, withIndex (a ++ tokD ++ b2) i = a ++ formatInt i ++ b2 := by
    intro b2
    unfold withIndex
    rw [if_pos (by omega), if_pos ((Contains_iff _ _).mpr ⟨a, b2, rfl⟩)]
    exact Replace_first tokD _ a b2 tokD_ne_nil (formatInt_ne_tokD i hi) hfirst
  by_cases he : Ext os (a ++ tokD ++ b) = []
  · rw [csvName_no_ext os _ i hp he, hrep, if_pos he]
  · obtain ⟨base, t, hpb, hext2, ht⟩ := Ext_shape os _ _ rfl he
    rw [if_neg he]
    rw [hext2] at hext
    obtain ⟨b2, hb, hb2⟩ := token_in_base a b base t hpb hext
    rw [hpb, csvName_ext os base t i ht, hb, hrep, hb2]
    simp

theorem csvName_replaces_first_witness :
    csvName GOOS.unix ("out_".toList ++ tokD ++ "_v1_%d.csv".toList) 5 =
      "out_".toList ++ formatInt 5 ++ "_v1_%d.csv".toList ++
        (if Ext GOOS.unix ("out_".toList ++ tokD ++ "_v1_%d.csv".toList) = [] then ".csv".toList
          else []) :=
  csvName_replaces_first GOOS.unix "out_".toList "_v1_%d.csv".toList 5 (by decide) (by decide)
    (by decide)

/-- What holds of C2 on the code: with a negative index, the first `%d` of the
pattern is removed when it lies before the extension, the extension is kept,
and `.csv` is appended when the pattern has none. -/
theorem csvName_removes_first (os : GOOS) (a b : GoString) (k : Int) (hk : k < 0)
    (hfirst : ¬ tokD <:+: a ++ ['%'])
    (hext : ¬ tokD <:+: Ext os (a ++ tokD ++ b)) :
    csvName os (a ++ tokD ++ b) k =
      a ++ b ++ (if Ext os (a ++ tokD ++ b) = [] then ".csv".toList else []) := by
  have hp : a ++ tokD ++ b ≠ [] := by simp [tokD]
  have hrep : ∀ b2, withIndex (a ++ tokD ++ b2) k = a ++ b2 := by
    intro b2
    unfold withIndex
    rw [if_neg (by omega)]
    simpa using Replace_first tokD [] a b2 tokD_ne_nil (by decide) hfirst
  by_cases he : Ext os (a ++ tokD ++ b) = []
  · rw [csvName_no_ext os _ k hp he, hrep, if_pos he]
  · obtain ⟨base, t, hpb, hext2, ht⟩ := Ext_shape os _ _ rfl he
    rw [if_neg he]
    rw [hext2] at hext
    obtain ⟨b2, hb, hb2⟩ := token_in_base a b base t hpb hext
    rw [hpb, csvName_ext os base t k ht, hb, hrep, hb2]
    simp

theorem csvName_removes_first_witness :
    csvName GOOS.unix ("out_".toList ++ tokD ++ "_v1.csv".toList) (-1) =
      "out_".toList ++ "_v1.csv".toList ++
        (if Ext GOOS.unix ("out_".toList ++ tokD ++ "_v1.csv".toList) = [] then ".csv".toList
          else []) :=
  csvName_removes_first GOOS.unix "out_".toList "_v1.csv".toList (-1) (by decide) (by decide)
    (by decide)

/-- With a negative index, a non-empty pattern whose part before the extension
holds no `%d` is returned as it is, `.csv` being appended when it has no
extension. -/
theorem csvName_negative_unchanged (os : GOOS) (p : GoString) (k : Int) (hk : k < 0)
    (hp : p ≠ []) (hno : ¬ tokD <:+: p) :
    csvName os p k = p ++ (if Ext os p = [] then ".csv".toList else []) := by
  by_cases he : Ext os p = []
  · rw [csvName_no_ext os _ k hp he, if_pos he]
    unfold withIndex
    rw [if_neg (by omega), Replace_absent _ _ _ hno]
  · obtain ⟨base, t, hpb, _, ht⟩ := Ext_shape os _ _ rfl he
    rw [if_neg he]
    subst hpb
    rw [csvName_ext os base t k ht]
    unfold withIndex
    rw [if_neg (by omega), Replace_absent _ _ _ (fun h => hno (h.trans ⟨[], '.' :: t, by simp⟩))]
    simp

theorem csvName_negative_unchanged_witness :
    csvName GOOS.unix "out.csv".toList (-1) =
      "out.csv".toList ++ (if Ext GOOS.unix "out.csv".toList = [] then ".csv".toList else []) :=
  csvName_negative_unchanged GOOS.unix "out.csv".toList (-1) (by decide) (by decide) (by decide)

/-- C1 on the code, at a pattern whose only `%d` is in the extension: the
token is not replaced; the index is put before the extension and the `%d`
stays. -/
theorem csvName_token_in_extension :
    csvName GOOS.unix "out.%d".toList 5 = "out.5.%d".toList ∧
    csvName GOOS.windows "out.%d".toList 5 = "out.5.%d".toList ∧
    csvName GOOS.unix "out.%d".toList 5 ≠ "out.5".toList := by
  decide

/-- C2 on the code, at a pattern whose only `%d` is in the extension: with a
negative index the token is not removed. -/
theorem csvName_negative_token_in_extension :
    csvName GOOS.unix "out.%d".toList (-1) = "out.%d".toList ∧
    csvName GOOS.windows "out.%d".toList (-1) = "out.%d".toList ∧
    csvName GOOS.unix "out.%d".toList (-1) ≠ "out.".toList := by
  decide

/-- The witnesses named in C1 and C2 do hold. -/
theorem csvName_spec_examples (os : GOOS) :
    csvName os "out_%d_v1.csv".toList 5 = "out_5_v1.csv".toList ∧
    csvName os "out_%d_v1.csv".toList (-1) = "out__v1.csv".toList := by
  cases os <;> decide

/-- C3 fails as stated: `csvName("report.xlsx", 2)` is not `report.2.csv`. -/
theorem csvName_report_not_csv :
    csvName GOOS.unix "report.xlsx".toList 2 ≠ "report.2.csv".toList ∧
    csvName GOOS.windows "report.xlsx".toList 2 ≠ "report.2.csv".toList := by
  decide

/-- C3, as the code behaves: `csvName("report.xlsx", 2)` keeps the extension of
the pattern and returns `report.2.xlsx`. -/
theorem csvName_report_xlsx (os : GOOS) :
    csvName os "report.xlsx".toList 2 = "report.2.xlsx".toList := by
  cases os <;> decide

/-- C4: a derived name that holds no `%d` is returned unchanged when a name is
derived from it again with a negative index. -/
theorem csvName_idempotent (os : GOOS) (p : GoString) (i k : Int) (hk : k < 0)
    (hno : ¬ tokD <:+: csvName os p i) :
    csvName os (csvName os p i) k = csvName os p i := by
  by_cases hp : p = []
  · subst hp
    simp [csvName]
  · obtain ⟨base, t, ht, _, hn⟩ := csvName_split os p hp
    rw [hn i] at hno ⊢
    rw [csvName_ext os _ t k ht]
    have hb : ¬ tokD <:+: withIndex base i :=
      fun h => hno (h.trans ⟨[], '.' :: t, by simp⟩)
    congr 1
    unfold withIndex
    rw [if_neg (by omega)]
    exact Replace_absent _ _ _ hb

theorem csvName_idempotent_witness :
    csvName GOOS.unix (csvName GOOS.unix "out_%d".toList 3) (-1)
      = csvName GOOS.unix "out_%d".toList 3 :=
  csvName_idempotent GOOS.unix "out_%d".toList 3 (-1) (by decide) (by decide)

/-! ## The claims about `main` -/

theorem xlsx_plain (os : GOOS) : ∀ c ∈ "xlsx".toList, plainChar os c := by
  intro c hc
  simp only [String.toList, List.mem_cons, List.mem_singleton, List.not_mem_nil, or_false] at hc
  rcases hc with rfl | rfl | rfl | rfl <;> cases os <;> exact ⟨by decide, by decide⟩

theorem append_csv_ne_stdout (x : GoString) : x ++ ".csv".toList ≠ "stdout".toList := by
  intro h
  have := congrArg List.getLast? h
  simp at this

/-- C9 fails as stated: for the input `book.xlsm` the default pattern is
`book.xlsm.csv`, not the input with its extension replaced by `.csv`. -/
theorem default_pattern_keeps_other_extension :
    mainOutName [] "book.xlsm".toList = "book.xlsm.csv".toList ∧
    withCsvExt GOOS.unix "book.xlsm".toList = "book.csv".toList ∧
    mainOutName [] "book.xlsm".toList ≠ withCsvExt GOOS.unix "book.xlsm".toList := by
  decide

/-- C9, as the code behaves: with an empty `-o` flag the output pattern is the
input file name with its extension replaced by `.csv` when the name ends in
`.xlsx`, and the whole input file name followed by `.csv` otherwise. -/
theorem mainOutName_default (os : GOOS) (arg0 : GoString) :
    mainOutName [] arg0 =
      if HasSuffix arg0 ".xlsx".toList then withCsvExt os arg0 else arg0 ++ ".csv".toList := by
  unfold mainOutName
  simp only [if_true]
  rw [if_neg (append_csv_ne_stdout _)]
  by_cases h : HasSuffix arg0 ".xlsx".toList = true
  · rw [if_pos h]
    obtain ⟨b, rfl⟩ := (HasSuffix_iff _ _).mp h
    have he : Ext os (b ++ ".xlsx".toList) = ".xlsx".toList :=
      Ext_of_shape os b "xlsx".toList (xlsx_plain os)
    unfold withCsvExt
    rw [he]
  · rw [if_neg h]
    unfold TrimSuffix
    rw [if_neg h]

/-- The example of C9: `input.xlsx` gives the pattern `input.csv`, and the
names of an all-sheet conversion are `input.0.csv`, `input.1.csv`. -/
theorem mainOutName_input_xlsx (os : GOOS) :
    mainOutName [] "input.xlsx".toList = "input.csv".toList ∧
    csvName os (mainOutName [] "input.xlsx".toList) 0 = "input.0.csv".toList ∧
    csvName os (mainOutName [] "input.xlsx".toList) 1 = "input.1.csv".toList := by
  cases os <;> decide

/-- When every export succeeds, the loop of `main` calls the exporter once for
each of the `k` sheet indices from `i` on, in increasing order. -/
theorem mainLoop_all_ok (env : Env) (xlFile : File) (opts : csvOptSetter)
    (outNameI : Int → GoString) : ∀ (k : Nat) (i : Int) (calls : List Call),
    (∀ j : Nat, j < k →
      (generateCSVFromXLSXFile env xlFile (i + j) opts (outNameI (i + j))).outcome
        = Outcome.returned none) →
    mainLoop env xlFile opts outNameI k i calls =
      ⟨calls ++ (List.range k).map (fun j : Nat =>
          (⟨i + j, outNameI (i + j),
            generateCSVFromXLSXFile env xlFile (i + j) opts (outNameI (i + j))⟩ : Call)),
        Exit.success⟩ := by
  intro k
  induction k with
  | zero => intro i calls _; simp [mainLoop]
  | succ k ih =>
    intro i calls h
    have h0 := h 0 (by omega)
    simp only [Nat.cast_zero, add_zero] at h0
    unfold mainLoop
    simp only [h0]
    rw [ih (i + 1) _ (fun j hj => by
      have := h (j + 1) (by omega)
      rw [show i + 1 + (j : Int) = i + ((j + 1 : Nat) : Int) by push_cast; ring]
      exact this)]
    rw [List.range_succ_eq_map]
    simp only [List.map_cons, List.map_map, List.append_assoc, List.singleton_append,
      Nat.cast_zero, add_zero]
    congr 3
    apply List.map_congr_left
    intro j _
    simp only [Function.comp, Nat.succ_eq_add_one]
    rw [show i + 1 + (j : Int) = i + ((j + 1 : Nat) : Int) by push_cast; ring]

/-- The first stop of the loop: when the export of sheet `i` does not return
nil, the loop makes that one call and no other. -/
theorem mainLoop_first_fails (env : Env) (xlFile : File) (opts : csvOptSetter)
    (outNameI : Int → GoString) (k : Nat) (i : Int) (calls : List Call)
    (h : (generateCSVFromXLSXFile env xlFile i opts (outNameI i)).outcome
      ≠ Outcome.returned none) :
    (mainLoop env xlFile opts outNameI (k + 1) i calls).calls.length = calls.length + 1 := by
  unfold mainLoop
  rcases ho : (generateCSVFromXLSXFile env xlFile i opts (outNameI i)).outcome with (_ | err) | _
  · exact absurd ho h
  · simp [ho]
  · simp [ho]

/-- The run of `main` on all sheets of a workbook with at least one sheet, when
the output does not go to standard output: the loop runs from 0 over all
sheets. -/
theorem main_loop_over_all (os : GOOS) (env : Env) (openFile : GoString → Except Error File)
    (flags : Flags) (arg0 : GoString) (xlFile : File)
    (hopen : openFile arg0 = Except.ok xlFile)
    (hN : 1 ≤ xlFile.Sheets.length)
    (hneg : flags.sheetIndex < 0)
    (hout : mainOutName flags.outFile arg0 ≠ []) :
    main os env openFile flags [arg0] =
      mainLoop env xlFile (delimiterOption flags.delimiter)
        (fun i => if xlFile.Sheets.length = 1 then csvName os (mainOutName flags.outFile arg0) (-1)
          else csvName os (mainOutName flags.outFile arg0) i)
        xlFile.Sheets.length 0 [] := by
  have h0 : ¬ ((xlFile.Sheets.length : Int) = 0) := by omega
  have h1 : ¬ (flags.sheetIndex ≥ (xlFile.Sheets.length : Int)) := by omega
  have h2 : ¬ (flags.sheetIndex ≥ 0) := by omega
  have hcount : ((xlFile.Sheets.length : Int) - 1 + 1 - 0).toNat = xlFile.Sheets.length := by
    omega
  unfold main
  simp only [hopen, hout, false_and, if_false, h0, h1, h2, hcount]
  congr 1
  by_cases hone : xlFile.Sheets.length = 1
  · have : (0 : Int) = (xlFile.Sheets.length : Int) - 1 := by omega
    simp [hone]
  · have : ¬ ((0 : Int) = (xlFile.Sheets.length : Int) - 1) := by omega
    simp [hone, this]

/-- C5, as the code behaves: on a workbook with `N ≥ 1` sheets, with a negative
sheet index and an output pattern that does not select standard output, and
provided every export call succeeds, the driver calls the exporter exactly
once for each sheet index `0, …, N-1` in increasing order and ends normally;
the output name for sheet `i` is `csvName(pattern, i)` when `N ≥ 2` and
`csvName(pattern, -1)` when `N = 1`; the names are non-empty and pairwise
distinct, and each call creates the file of its own name. -/
theorem main_all_sheets (os : GOOS) (env : Env) (openFile : GoString → Except Error File)
    (flags : Flags) (arg0 : GoString) (xlFile : File)
    (hopen : openFile arg0 = Except.ok xlFile)
    (hN : 1 ≤ xlFile.Sheets.length)
    (hneg : flags.sheetIndex < 0)
    (hout : mainOutName flags.outFile arg0 ≠ [])
    (hok : ∀ j : Nat, j < xlFile.Sheets.length →
      (generateCSVFromXLSXFile env xlFile j (delimiterOption flags.delimiter)
        (if xlFile.Sheets.length = 1 then csvName os (mainOutName flags.outFile arg0) (-1)
          else csvName os (mainOutName flags.outFile arg0) j)).outcome = Outcome.returned none) :
    (main os env openFile flags [arg0]).exit = Exit.success ∧
    (main os env openFile flags [arg0]).calls.map (fun c => (c.sheetIndex, c.outName))
      = (List.range xlFile.Sheets.length).map (fun j : Nat =>
          ((j : Int),
            if xlFile.Sheets.length = 1 then csvName os (mainOutName flags.outFile arg0) (-1)
            else csvName os (mainOutName flags.outFile arg0) j)) ∧
    (∀ c ∈ (main os env openFile flags [arg0]).calls,
      c.outName ≠ [] ∧ c.result.created = [c.outName]) ∧
    ((main os env openFile flags [arg0]).calls.map Call.outName).Nodup := by
  have hp := hout
  rw [main_loop_over_all os env openFile flags arg0 xlFile hopen hN hneg hout,
    mainLoop_all_ok env xlFile _ _ xlFile.Sheets.length 0 [] (fun j hj => by
      simpa using hok j hj)]
  simp only [List.nil_append, List.map_map, zero_add]
  refine ⟨trivial, ?_, ?_, ?_⟩
  · apply List.map_congr_left
    intro j _
    simp [Function.comp]
  · intro c hc
    obtain ⟨j, hj, rfl⟩ := List.mem_map.mp hc
    have hj2 : j < xlFile.Sheets.length := List.mem_range.mp hj
    have hne : (if xlFile.Sheets.length = 1 then csvName os (mainOutName flags.outFile arg0) (-1)
        else csvName os (mainOutName flags.outFile arg0) (j : Int)) ≠ [] := by
      split <;> exact csvName_ne_nil os _ _ hp
    refine ⟨hne, ?_⟩
    obtain ⟨_, _, _, _, _, hcr⟩ := generate_success env xlFile j _ _ (hok j hj2)
    simp only [hcr]
    rw [if_pos hne]
  · apply List.Nodup.map_on _ (List.nodup_range _)
    intro x hx y hy hxy
    have hx2 : x < xlFile.Sheets.length := List.mem_range.mp hx
    have hy2 : y < xlFile.Sheets.length := List.mem_range.mp hy
    simp only [Function.comp] at hxy
    by_cases hone : xlFile.Sheets.length = 1
    · omega
    · rw [if_neg hone, if_neg hone] at hxy
      have := csvName_injective os _ hp x y (by omega) (by omega) hxy
      omega

theorem main_all_sheets_witness :
    (main GOOS.unix envOk (fun _ => Except.ok sampleBook) ⟨[], -1, [',']⟩
      ["in.xlsx".toList]).exit = Exit.success ∧
    (main GOOS.unix envOk (fun _ => Except.ok sampleBook) ⟨[], -1, [',']⟩
      ["in.xlsx".toList]).calls.map (fun c => (c.sheetIndex, c.outName))
      = (List.range sampleBook.Sheets.length).map (fun j : Nat =>
          ((j : Int),
            if sampleBook.Sheets.length = 1 then
              csvName GOOS.unix (mainOutName [] "in.xlsx".toList) (-1)
            else csvName GOOS.unix (mainOutName [] "in.xlsx".toList) j)) ∧
    (∀ c ∈ (main GOOS.unix envOk (fun _ => Except.ok sampleBook) ⟨[], -1, [',']⟩
        ["in.xlsx".toList]).calls,
      c.outName ≠ [] ∧ c.result.created = [c.outName]) ∧
    ((main GOOS.unix envOk (fun _ => Except.ok sampleBook) ⟨[], -1, [',']⟩
      ["in.xlsx".toList]).calls.map Call.outName).Nodup :=
  main_all_sheets GOOS.unix envOk (fun _ => Except.ok sampleBook) ⟨[], -1, [',']⟩
    "in.xlsx".toList sampleBook rfl (by decide) (by decide) (by decide) (by decide)

/-- C5 fails as stated: on a workbook of two sheets whose first sheet has a
cell that fails to format, the driver run with sheet index -1 calls the
exporter for sheet 0 only and exits with that error; sheet 1 is never
exported. -/
theorem main_stops_at_first_failure :
    failingBook.Sheets.length = 2 ∧
    mainOutName [] "in.xlsx".toList ≠ [] ∧
    (main GOOS.unix envOk (fun _ => Except.ok failingBook) ⟨[], -1, [',']⟩
      ["in.xlsx".toList]).calls.map Call.sheetIndex = [0] ∧
    (main GOOS.unix envOk (fun _ => Except.ok failingBook) ⟨[], -1, [',']⟩
      ["in.xlsx".toList]).exit = Exit.fatal (Error.external "bad cell".toList) := by
  decide

end Xlsx2csv
